import Mathlib

/-!
Verification of the fortune-cookie backend core (store + cache + service
operations), shallowly embedded from `src/backend/src/main.rs` and
`src/backend/src/redis_client.rs`.

The in-memory `HashMap<String, Fortune>` is embedded as an association list
with insert-replaces-key semantics; the external Redis store is embedded as a
table of named hashes; the optional cache client is a `CacheEnv` recording
whether the process-wide client is connected and how the external store
answers point lookups and writes (a `none`/`false` answer covers every error
the Rust code treats uniformly).
-/

namespace FortuneBackend

/-- `Fortune` record from `main.rs`: `{ id: String, message: String }`. -/
structure Fortune where
  id : String
  message : String
deriving DecidableEq, Repr

/-- The in-memory store `HashMap<String, Fortune>`, embedded as an
association list; `Store.insert` replaces any existing binding of the key,
matching `HashMap::insert`. -/
abbrev Store := List (String × Fortune)

/-- Point lookup, embedding `HashMap::get`. -/
def Store.get (st : Store) (k : String) : Option Fortune :=
  List.lookup k st

/-- Insert-or-replace, embedding `HashMap::insert` (the returned previous
value is ignored by all call sites). -/
def Store.insert (st : Store) (k : String) (f : Fortune) : Store :=
  (k, f) :: List.eraseP (fun p => p.1 == k) st

/-- Snapshot of the stored values, embedding `map.values().cloned()`. -/
def Store.values (st : Store) : List Fortune :=
  List.map (fun p => p.2) st

/-- `create_default_store` from `main.rs`: the four statically seeded
default fortunes. -/
def create_default_store : Store :=
  Store.insert
    (Store.insert
      (Store.insert
        (Store.insert ([] : Store)
          "1" ⟨"1", "A new voyage will fill your life with untold memories."⟩)
        "2" ⟨"2", "The measure of time to your next goal is the measure of your discipline."⟩)
      "3" ⟨"3", "The only way to do well is to do better each day."⟩)
    "4" ⟨"4", "It ain\x27t over till it\x27s EOF."⟩

/-- The process-wide cache situation seen by one request: whether
`redis_client::get_client()` returns `Some` (the `USING_REDIS` flag), how
`HGET fortunes <key>` answers (`none` = any `RedisResult` error, including
connection failure and missing field), and whether `HSET` succeeds. -/
structure CacheEnv where
  connected : Bool
  getResp : String → Option String
  setOk : String → Bool

/-- JSON reply bodies produced by the handlers. -/
inductive Body where
  | fortune (f : Fortune)
  | text (s : String)
  | list (fs : List Fortune)
deriving DecidableEq, Repr

/-- An HTTP reply: status code and JSON body. -/
abbrev Response := Nat × Body

/-- `list_fortunes` from `main.rs`: a read-locked snapshot of all values;
the store is not modified. -/
def list_fortunes (st : Store) : Response × Store :=
  ((200, .list (Store.values st)), st)

/-- `get_fortune` from `main.rs`: if the client is available, try the cache;
on success refresh the store entry and return 200; otherwise fall back to
the store, answering 404 with the JSON string "fortune not found" when the
id is absent. -/
def get_fortune (env : CacheEnv) (id : String) (st : Store) : Response × Store :=
  if env.connected then
    match env.getResp id with
    | some message =>
      let fortune : Fortune := ⟨id, message⟩
      ((200, .fortune fortune), Store.insert st id fortune)
    | none =>
      match Store.get st id with
      | some f => ((200, .fortune f), st)
      | none => ((404, .text "fortune not found"), st)
  else
    match Store.get st id with
    | some f => ((200, .fortune f), st)
    | none => ((404, .text "fortune not found"), st)

/-- Result of `create_fortune`: the reply, the updated store, and the lines
written to stderr (`eprintln!`). -/
structure CreateOut where
  response : Response
  store : Store
  log : List String
deriving DecidableEq, Repr

/-- `create_fortune` from `main.rs`: best-effort `HSET` (failure only
logged), then unconditional insert into the store; replies 200 with the
submitted fortune. -/
def create_fortune (env : CacheEnv) (fortune : Fortune) (st : Store) : CreateOut :=
  { response := (200, .fortune fortune)
    store := Store.insert st fortune.id fortune
    log := if env.connected && !(env.setOk fortune.id) then ["Redis hset failed"] else [] }

/-- `random_fortune` from `main.rs`: snapshot the values; when empty,
delegate to `get_fortune "zero"`; otherwise pick the entry at the sampled
index (`rng.gen_range(0..len)` always yields an index `< len`, so the `%`
is the identity on the values the generator produces) and delegate to
`get_fortune` on its id. -/
def random_fortune (env : CacheEnv) (randomIndex : Nat) (st : Store) : Response × Store :=
  let fortunes_vec := Store.values st
  if h : fortunes_vec = [] then
    get_fortune env "zero" st
  else
    let i : Fin fortunes_vec.length :=
      ⟨randomIndex % fortunes_vec.length,
        Nat.mod_lt _ (List.length_pos.mpr h)⟩
    get_fortune env (fortunes_vec.get i).id st

/-! ## The external Redis store and `redis_client.rs` -/

/-- The external Redis instance: a table of named hashes, each an
association list of field/value pairs. -/
structure RedisDb where
  table : String → List (String × String)

/-- Redis `HKEYS <h>`: the fields of hash `h`. -/
def RedisDb.hkeys (d : RedisDb) (h : String) : List String :=
  List.map (fun p => p.1) (d.table h)

/-- Redis `HGET <h> <f>`: the value of field `f` of hash `h`. -/
def RedisDb.hget (d : RedisDb) (h f : String) : Option String :=
  List.lookup f (d.table h)

/-- Redis `HSET <h> <f> <v>`: set field `f` of hash `h` to `v`. -/
def RedisDb.hset (d : RedisDb) (h f v : String) : RedisDb :=
  ⟨fun h2 =>
    if h2 = h then (f, v) :: List.eraseP (fun p => p.1 == f) (d.table h)
    else d.table h2⟩

/-- `redis_client::get_fortune`: `HGET` on the hash named "fortunes" with
field = the fortune id. -/
def rc_get_fortune (d : RedisDb) (key : String) : Option String :=
  RedisDb.hget d "fortunes" key

/-- `redis_client::set_fortune`: `HSET` on the hash named "fortunes" with
field = the fortune id, value = the message. -/
def rc_set_fortune (d : RedisDb) (key message : String) : RedisDb :=
  RedisDb.hset d "fortunes" key message

/-- Loop body of `redis_client::load_fortunes`: `HGET` one field; a
successful lookup is inserted into the store as `Fortune { id: key,
message }`, an `HGET` error is only logged and the key skipped. -/
def loadStep (g : String → Option String) (acc : Store) (key : String) : Store :=
  match g key with
  | some msg => Store.insert acc key ⟨key, msg⟩
  | none => acc

/-- `redis_client::load_fortunes`: `HKEYS "fortunes"`, then the per-field
loop folded over the returned field list. -/
def rc_load_fortunes (d : RedisDb) (st : Store) : Store :=
  List.foldl (loadStep (RedisDb.hget d "fortunes")) st (RedisDb.hkeys d "fortunes")

/-! ## `redis_client::init` -/

/-- Terminal state of the process-wide cache handle. -/
inductive ClientState where
  | connected
  | unavailable
deriving DecidableEq, Repr

/-- Outcome of `init`: the handle state, how many connection attempts were
made, and the seconds slept after each failed attempt. -/
structure InitOut where
  state : ClientState
  attempts : Nat
  sleeps : List Nat
deriving DecidableEq, Repr

/-- The `for attempt in 1..=5` loop of `init`: `ok a` tells whether attempt
number `a` (client creation plus `get_connection`) succeeds; each failure is
followed by `sleep(2)` before the next iteration (also after the last one,
as in the source). -/
def initLoop (ok : Nat → Bool) : Nat → Nat → InitOut
  | 0, _ => ⟨.unavailable, 0, []⟩
  | fuel + 1, attempt =>
    if ok attempt then ⟨.connected, 1, []⟩
    else
      let r := initLoop ok fuel (attempt + 1)
      ⟨r.state, r.attempts + 1, 2 :: r.sleeps⟩

/-- `redis_client::init`: when the `REDIS_DNS` configuration is absent,
return at once (handle stays unavailable, no attempt); otherwise run the
bounded retry loop, attempts numbered 1 through 5. -/
def init (configPresent : Bool) (ok : Nat → Bool) : InitOut :=
  if configPresent then initLoop ok 5 1
  else ⟨.unavailable, 0, []⟩

/-! ## Lock/network event traces

The async handlers are sequential code; what each claim about lock
discipline needs is the order of lock acquisitions, lock releases and
network round trips in that sequential code, which we record as a list of
events (one `netCall` per call into the redis crate that touches the
network). -/

inductive Event where
  | lockRead
  | unlockRead
  | lockWrite
  | unlockWrite
  | netCall
deriving DecidableEq, Repr

/-- Events of `get_fortune`: a cache attempt (if the client is available),
then either a write-locked insert (cache hit) or a read-locked lookup. -/
def get_fortune_trace (env : CacheEnv) (id : String) : List Event :=
  if env.connected then
    match env.getResp id with
    | some _ => [.netCall, .lockWrite, .unlockWrite]
    | none => [.netCall, .lockRead, .unlockRead]
  else [.lockRead, .unlockRead]

/-- Events of `create_fortune`: a cache `HSET` attempt (if the client is
available), then a write-locked insert. -/
def create_fortune_trace (env : CacheEnv) : List Event :=
  if env.connected then [.netCall, .lockWrite, .unlockWrite]
  else [.lockWrite, .unlockWrite]

/-- Events of `random_fortune`: a read-locked snapshot, explicitly dropped,
then the delegated `get_fortune` (on "zero" or on the sampled id — the
event shape is the same either way). -/
def random_fortune_trace (env : CacheEnv) (randomIndex : Nat) (st : Store) :
    List Event :=
  [.lockRead, .unlockRead] ++
    (if h : Store.values st = [] then get_fortune_trace env "zero"
     else
       get_fortune_trace env
         ((Store.values st).get
           ⟨randomIndex % (Store.values st).length,
             Nat.mod_lt _ (List.length_pos.mpr h)⟩).id)

/-- Events of `load_fortunes`: `get_connection`, `HKEYS`, and on success the
write lock is taken before the key loop and held while every per-key `HGET`
runs. -/
def load_fortunes_trace (connOk hkeysOk : Bool) (keys : List String) :
    List Event :=
  if connOk then
    if hkeysOk then
      [.netCall, .netCall, .lockWrite] ++
        List.map (fun _ => Event.netCall) keys ++ [.unlockWrite]
    else [.netCall, .netCall]
  else [.netCall]

/-- Scan of a trace: is some `netCall` emitted while the store lock is
held? -/
def netWhileLocked : List Event → Bool → Bool
  | [], _ => false
  | e :: rest, held =>
    match e with
    | .netCall => held || netWhileLocked rest held
    | .lockRead => netWhileLocked rest true
    | .lockWrite => netWhileLocked rest true
    | .unlockRead => netWhileLocked rest false
    | .unlockWrite => netWhileLocked rest false

/-- A trace holds the store lock across a network call iff the scan,
started unlocked, finds a `netCall` in a held region. -/
def holdsLockAcrossNet (tr : List Event) : Bool :=
  netWhileLocked tr false

/-! ## Reachable store states

The store is created by `create_default_store`, optionally overlaid by
`load_fortunes` at startup, and then mutated only by the handlers. -/

/-- Store states reachable in the program: seeding, startup overlay, and
the three handlers that may write. -/
inductive Reachable : Store → Prop where
  | seeded : Reachable create_default_store
  | overlay (d : RedisDb) {st : Store} :
      Reachable st → Reachable (rc_load_fortunes d st)
  | step_get (env : CacheEnv) (id : String) {st : Store} :
      Reachable st → Reachable (get_fortune env id st).2
  | step_random (env : CacheEnv) (i : Nat) {st : Store} :
      Reachable st → Reachable (random_fortune env i st).2
  | step_create (env : CacheEnv) (f : Fortune) {st : Store} :
      Reachable st → Reachable (create_fortune env f st).store

/-- Store states reachable when every externally supplied id is non-empty:
the same steps as `Reachable`, but the overlaid hash fields, the requested
ids and the created fortunes are required to have non-empty ids (the code
itself never checks this). -/
inductive ReachableNE : Store → Prop where
  | seeded : ReachableNE create_default_store
  | overlay (d : RedisDb) {st : Store}
      (hd : ∀ key ∈ RedisDb.hkeys d "fortunes", key ≠ "") :
      ReachableNE st → ReachableNE (rc_load_fortunes d st)
  | step_get (env : CacheEnv) (id : String) {st : Store} (hid : id ≠ "") :
      ReachableNE st → ReachableNE (get_fortune env id st).2
  | step_random (env : CacheEnv) (i : Nat) {st : Store} :
      ReachableNE st → ReachableNE (random_fortune env i st).2
  | step_create (env : CacheEnv) (f : Fortune) {st : Store} (hf : f.id ≠ "") :
      ReachableNE st → ReachableNE (create_fortune env f st).store

/-- Key–id consistency of a store: every binding maps a key to a fortune
carrying that key as its id. -/
abbrev KeyIdInv (st : Store) : Prop := ∀ p ∈ st, p.2.id = p.1

/-- A `CacheEnv` for the cache-disabled configuration (`get_client()`
returns `None`; the response functions are never consulted). -/
def offCacheEnv : CacheEnv := ⟨false, fun _ => none, fun _ => false⟩

/-- A concrete connected `CacheEnv` whose hash holds the single entry
`"5" ↦ "X"`; used to instantiate universally quantified statements. -/
def hit5CacheEnv : CacheEnv :=
  ⟨true, fun k => if k == "5" then some "X" else none, fun _ => true⟩

/-- A concrete connected `CacheEnv` whose point operations all fail. -/
def downCacheEnv : CacheEnv := ⟨true, fun _ => none, fun _ => false⟩

/-- A concrete external store whose "fortunes" hash holds `"1" ↦ "redis"`
and `"9" ↦ "nine"`. -/
def sampleDb : RedisDb :=
  ⟨fun h => if h == "fortunes" then [("1", "redis"), ("9", "nine")] else []⟩

/-! ## Helper lemmas about the store embedding -/

theorem lookup_eraseP_ne {β : Type} (l : List (String × β)) {k k2 : String}
    (h : k2 ≠ k) :
    List.lookup k2 (List.eraseP (fun p => p.1 == k) l) = List.lookup k2 l := by
  induction l with
  | nil => rfl
  | cons p t ih =>
    obtain ⟨a, b⟩ := p
    by_cases ha : a = k
    · subst ha
      simp [List.eraseP_cons, List.lookup, beq_false_of_ne h]
    · simp only [List.eraseP_cons, beq_false_of_ne ha, cond_false]
      by_cases hk2 : k2 = a
      · subst hk2
        simp [List.lookup]
      · simp [List.lookup, beq_false_of_ne hk2, ih]

theorem lookup_mem {β : Type} {l : List (String × β)} {k : String} {v : β}
    (h : List.lookup k l = some v) : (k, v) ∈ l := by
  induction l with
  | nil => simp [List.lookup] at h
  | cons p t ih =>
    obtain ⟨a, b⟩ := p
    by_cases hk : k = a
    · subst hk
      simp [List.lookup] at h
      simp [h]
    · simp [List.lookup, beq_false_of_ne hk] at h
      exact List.mem_cons_of_mem _ (ih h)

theorem lookup_isSome_of_mem_key {β : Type} {l : List (String × β)}
    {k : String} {v : β} (h : (k, v) ∈ l) :
    (List.lookup k l).isSome = true := by
  induction l with
  | nil => simp at h
  | cons p t ih =>
    obtain ⟨a, b⟩ := p
    by_cases hk : k = a
    · subst hk
      simp [List.lookup]
    · rcases List.mem_cons.mp h with h1 | h1
      · exact absurd (congrArg Prod.fst h1) hk
      · have heq : List.lookup k ((a, b) :: t) = List.lookup k t := by
          simp [List.lookup, beq_false_of_ne hk]
        rw [heq]
        exact ih h1

theorem Store.get_insert_self (st : Store) (k : String) (f : Fortune) :
    Store.get (Store.insert st k f) k = some f := by
  simp [Store.get, Store.insert, List.lookup]

theorem Store.get_insert_ne (st : Store) (k : String) (f : Fortune)
    {k2 : String} (h : k2 ≠ k) :
    Store.get (Store.insert st k f) k2 = Store.get st k2 := by
  simp only [Store.get, Store.insert, List.lookup, beq_false_of_ne h]
  exact lookup_eraseP_ne st h

theorem Store.get_insert_isSome (st : Store) (k : String) (f : Fortune)
    (k2 : String) (h : (Store.get st k2).isSome = true) :
    (Store.get (Store.insert st k f) k2).isSome = true := by
  by_cases hk : k2 = k
  · subst hk
    rw [Store.get_insert_self]
    rfl
  · rw [Store.get_insert_ne st k f hk]
    exact h

theorem Store.mem_insert_elim {st : Store} {k : String} {f : Fortune}
    {p : String × Fortune} (h : p ∈ Store.insert st k f) :
    p = (k, f) ∨ p ∈ st := by
  rcases List.mem_cons.mp h with h1 | h1
  · exact Or.inl h1
  · exact Or.inr ((List.eraseP_sublist st).subset h1)

theorem Store.mem_values {st : Store} {f : Fortune} :
    f ∈ Store.values st ↔ ∃ k, (k, f) ∈ st := by
  constructor
  · intro h
    rcases List.mem_map.mp h with ⟨⟨a, b⟩, hp, he⟩
    exact ⟨a, he ▸ hp⟩
  · rintro ⟨k, hk⟩
    exact List.mem_map.mpr ⟨(k, f), hk, rfl⟩

/-! ## Helper lemmas about the load fold and the handlers -/

theorem loadFold_get_not_mem (g : String → Option String)
    (keys : List String) (st : Store) {k : String} (h : k ∉ keys) :
    Store.get (List.foldl (loadStep g) st keys) k = Store.get st k := by
  induction keys generalizing st with
  | nil => rfl
  | cons key rest ih =>
    have hk : k ≠ key := fun he => h (he ▸ List.mem_cons_self key rest)
    have hrest : k ∉ rest := fun hr => h (List.mem_cons_of_mem _ hr)
    rw [List.foldl_cons, ih _ hrest]
    unfold loadStep
    cases g key with
    | none => rfl
    | some msg => exact Store.get_insert_ne st key ⟨key, msg⟩ hk

theorem loadFold_get_mem (g : String → Option String)
    (keys : List String) (st : Store) {k : String} {m : String}
    (hk : k ∈ keys) (hg : g k = some m) :
    Store.get (List.foldl (loadStep g) st keys) k = some ⟨k, m⟩ := by
  induction keys generalizing st with
  | nil => simp at hk
  | cons key rest ih =>
    by_cases hr : k ∈ rest
    · exact ih _ hr
    · have hke : k = key := by
        rcases List.mem_cons.mp hk with h1 | h1
        · exact h1
        · exact absurd h1 hr
      subst hke
      rw [List.foldl_cons, loadFold_get_not_mem g rest _ hr]
      unfold loadStep
      rw [hg]
      exact Store.get_insert_self st k ⟨k, m⟩

theorem loadFold_get_isSome (g : String → Option String)
    (keys : List String) (st : Store) (k : String)
    (h : (Store.get st k).isSome = true) :
    (Store.get (List.foldl (loadStep g) st keys) k).isSome = true := by
  induction keys generalizing st with
  | nil => exact h
  | cons key rest ih =>
    rw [List.foldl_cons]
    apply ih
    unfold loadStep
    cases g key with
    | none => exact h
    | some msg => exact Store.get_insert_isSome st key ⟨key, msg⟩ k h

theorem loadFold_pred (I : String × Fortune → Prop)
    (g : String → Option String) (keys : List String) (st : Store)
    (hkeys : ∀ key ∈ keys, ∀ m, g key = some m → I (key, ⟨key, m⟩))
    (hst : ∀ p ∈ st, I p) :
    ∀ p ∈ List.foldl (loadStep g) st keys, I p := by
  induction keys generalizing st with
  | nil => exact hst
  | cons key rest ih =>
    rw [List.foldl_cons]
    apply ih
    · intro key2 hk2 m hm
      exact hkeys key2 (List.mem_cons_of_mem _ hk2) m hm
    · intro p hp
      unfold loadStep at hp
      cases hg : g key with
      | none =>
        rw [hg] at hp
        exact hst p hp
      | some msg =>
        rw [hg] at hp
        rcases Store.mem_insert_elim hp with h1 | h1
        · subst h1
          exact hkeys key (List.mem_cons_self key rest) msg hg
        · exact hst p h1

theorem Store.insert_pred (I : String × Fortune → Prop) {st : Store}
    {k : String} {f : Fortune} (hst : ∀ p ∈ st, I p) (hk : I (k, f)) :
    ∀ p ∈ Store.insert st k f, I p := by
  intro p hp
  rcases Store.mem_insert_elim hp with h1 | h1
  · subst h1
    exact hk
  · exact hst p h1

theorem get_fortune_store_cases (env : CacheEnv) (id : String) (st : Store) :
    (get_fortune env id st).2 = st ∨
      ∃ msg, env.connected = true ∧ env.getResp id = some msg ∧
        (get_fortune env id st).2 = Store.insert st id ⟨id, msg⟩ := by
  unfold get_fortune
  cases hc : env.connected with
  | false =>
    cases Store.get st id <;> simp
  | true =>
    cases hg : env.getResp id with
    | none => cases Store.get st id <;> simp
    | some msg => simp

theorem get_fortune_get_isSome (env : CacheEnv) (id : String) (st : Store)
    (k : String) (h : (Store.get st k).isSome = true) :
    (Store.get (get_fortune env id st).2 k).isSome = true := by
  rcases get_fortune_store_cases env id st with hc | ⟨msg, _, _, hc⟩
  · rw [hc]
    exact h
  · rw [hc]
    exact Store.get_insert_isSome st id ⟨id, msg⟩ k h

theorem random_fortune_delegates (env : CacheEnv) (i : Nat) (st : Store) :
    (Store.values st = [] ∧ random_fortune env i st = get_fortune env "zero" st) ∨
      ∃ f, f ∈ Store.values st ∧
        random_fortune env i st = get_fortune env f.id st := by
  unfold random_fortune
  by_cases h : Store.values st = []
  · rw [dif_pos h]
    exact Or.inl ⟨h, rfl⟩
  · rw [dif_neg h]
    right
    exact ⟨_, List.get_mem _ _ _, rfl⟩

theorem random_fortune_get_isSome (env : CacheEnv) (i : Nat) (st : Store)
    (k : String) (h : (Store.get st k).isSome = true) :
    (Store.get (random_fortune env i st).2 k).isSome = true := by
  rcases random_fortune_delegates env i st with ⟨_, hc⟩ | ⟨f, _, hc⟩ <;>
    rw [hc] <;> exact get_fortune_get_isSome env _ st k h

/-! ## Invariant-preservation helpers -/

theorem get_fortune_keyIdInv (env : CacheEnv) (id : String) (st : Store)
    (h : KeyIdInv st) : KeyIdInv (get_fortune env id st).2 := by
  rcases get_fortune_store_cases env id st with hc | ⟨msg, _, _, hc⟩ <;> rw [hc]
  · exact h
  · exact Store.insert_pred _ h rfl

theorem reachable_keyIdInv {st : Store} (h : Reachable st) : KeyIdInv st := by
  induction h with
  | seeded => decide
  | overlay d _ ih =>
    apply loadFold_pred
    · intro key _ m _
      rfl
    · exact ih
  | step_get env id _ ih => exact get_fortune_keyIdInv env id _ ih
  | step_random env i _ ih =>
    rcases random_fortune_delegates env i _ with ⟨_, hc⟩ | ⟨f, _, hc⟩ <;> rw [hc] <;>
      exact get_fortune_keyIdInv env _ _ ih
  | step_create env f _ ih => exact Store.insert_pred _ ih rfl

theorem get_fortune_idsNE (env : CacheEnv) (id : String) (st : Store)
    (hid : id ≠ "") (h : ∀ p ∈ st, p.2.id ≠ "") :
    ∀ p ∈ (get_fortune env id st).2, p.2.id ≠ "" := by
  rcases get_fortune_store_cases env id st with hc | ⟨msg, _, _, hc⟩ <;> rw [hc]
  · exact h
  · exact Store.insert_pred _ h hid

theorem reachableNE_idsNE {st : Store} (h : ReachableNE st) :
    ∀ p ∈ st, p.2.id ≠ "" := by
  induction h with
  | seeded => decide
  | overlay d hd _ ih =>
    apply loadFold_pred
    · intro key hk m _
      exact hd key hk
    · exact ih
  | step_get env id hid _ ih => exact get_fortune_idsNE env id _ hid ih
  | step_random env i _ ih =>
    rcases random_fortune_delegates env i _ with ⟨_, hc⟩ | ⟨f, hf, hc⟩ <;> rw [hc]
    · exact get_fortune_idsNE env _ _ (by decide) ih
    · rcases Store.mem_values.mp hf with ⟨k, hk⟩
      exact get_fortune_idsNE env _ _ (ih (k, f) hk) ih
  | step_create env f hf _ ih => exact Store.insert_pred _ ih hf

theorem get_fallback_found (env : CacheEnv) (st : Store) (f0 : Fortune)
    (hc : env.connected = false) (hw : KeyIdInv st)
    (hf0 : f0 ∈ Store.values st) :
    ∃ f1, f1 ∈ Store.values st ∧
      (get_fortune env f0.id st).1 = (200, Body.fortune f1) := by
  rcases Store.mem_values.mp hf0 with ⟨k, hk⟩
  have hkid : f0.id = k := hw (k, f0) hk
  have hsome : (Store.get st f0.id).isSome = true := by
    rw [Store.get, hkid]
    exact lookup_isSome_of_mem_key hk
  obtain ⟨f1, hf1⟩ := Option.isSome_iff_exists.mp hsome
  refine ⟨f1, Store.mem_values.mpr ⟨f0.id, lookup_mem hf1⟩, ?_⟩
  simp [get_fortune, hc, hf1]

/-! ## Trace helpers -/

theorem get_trace_clean (env : CacheEnv) (id : String) :
    netWhileLocked (get_fortune_trace env id) false = false := by
  unfold get_fortune_trace
  cases env.connected
  · rfl
  · cases env.getResp id <;> rfl

/-! ## Claim theorems -/

/-- C1: for every id, `get` returns a found Fortune built from the cache
message and writes it into the store whenever the client is connected and
the cache lookup succeeds; otherwise it falls back to the store, returning
the stored Fortune when present and a 404 with the JSON string
"fortune not found" when absent (the store is then left unchanged). -/
theorem get_fortune_cache_precedence_spec (env : CacheEnv) (id : String)
    (st : Store) :
    (∀ msg, env.connected = true → env.getResp id = some msg →
      get_fortune env id st =
        ((200, Body.fortune ⟨id, msg⟩), Store.insert st id ⟨id, msg⟩)) ∧
    ((env.connected = false ∨ env.getResp id = none) →
      (get_fortune env id st).2 = st ∧
      (∀ f, Store.get st id = some f →
        (get_fortune env id st).1 = (200, Body.fortune f)) ∧
      (Store.get st id = none →
        (get_fortune env id st).1 = (404, Body.text "fortune not found"))) := by
  constructor
  · intro msg hc hg
    simp [get_fortune, hc, hg]
  · intro hfall
    have hres : get_fortune env id st =
        (match Store.get st id with
         | some f => ((200, Body.fortune f), st)
         | none => ((404, Body.text "fortune not found"), st)) := by
      rcases hfall with hc | hg
      · simp [get_fortune, hc]
      · cases hc : env.connected
        · simp [get_fortune, hc]
        · simp [get_fortune, hc, hg]
    rw [hres]
    cases hst : Store.get st id <;> simp [hst]

/-- Witness for C1: a connected cache holding `"5" ↦ "X"` answers a `get`
for "5" from the cache and refreshes the store; with the cache disabled, a
`get` for the absent id "7" answers 404 "fortune not found". -/
theorem get_fortune_cache_precedence_check :
    get_fortune hit5CacheEnv "5" create_default_store =
      ((200, Body.fortune ⟨"5", "X"⟩),
        Store.insert create_default_store "5" ⟨"5", "X"⟩) ∧
    (get_fortune offCacheEnv "7" create_default_store).1 =
      (404, Body.text "fortune not found") :=
  ⟨(get_fortune_cache_precedence_spec hit5CacheEnv "5" create_default_store).1
      "X" rfl (by decide),
   ((get_fortune_cache_precedence_spec offCacheEnv "7" create_default_store).2
      (Or.inl rfl)).2.2 (by decide)⟩

/-- C2: `create` replies 200 with the submitted fortune and
insert-or-replaces it in the store under its id, leaving every other key
untouched; reply and store do not depend on the cache outcome at all, and
a failing `HSET` while connected only adds a log line. -/
theorem create_fortune_spec (env : CacheEnv) (f : Fortune) (st : Store) :
    (create_fortune env f st).response = (200, Body.fortune f) ∧
    Store.get (create_fortune env f st).store f.id = some f ∧
    (∀ k, k ≠ f.id →
      Store.get (create_fortune env f st).store k = Store.get st k) ∧
    (∀ env2 : CacheEnv,
      (create_fortune env2 f st).response = (create_fortune env f st).response ∧
      (create_fortune env2 f st).store = (create_fortune env f st).store) ∧
    (env.connected = true → env.setOk f.id = false →
      (create_fortune env f st).log = ["Redis hset failed"]) := by
  refine ⟨rfl, Store.get_insert_self st f.id f, ?_, ?_, ?_⟩
  · intro k hk
    exact Store.get_insert_ne st f.id f hk
  · intro env2
    exact ⟨rfl, rfl⟩
  · intro hc hs
    simp [create_fortune, hc, hs]

/-- Witness for C2: creating `("9","Y")` against a connected cache whose
`HSET` fails still stores the fortune under "9", leaves "1" alone, and
logs the failure. -/
theorem create_fortune_check :
    Store.get (create_fortune downCacheEnv ⟨"9", "Y"⟩ create_default_store).store
      "9" = some ⟨"9", "Y"⟩ ∧
    Store.get (create_fortune downCacheEnv ⟨"9", "Y"⟩ create_default_store).store
      "1" = Store.get create_default_store "1" ∧
    (create_fortune downCacheEnv ⟨"9", "Y"⟩ create_default_store).log =
      ["Redis hset failed"] :=
  ⟨(create_fortune_spec downCacheEnv ⟨"9", "Y"⟩ create_default_store).2.1,
   (create_fortune_spec downCacheEnv ⟨"9", "Y"⟩ create_default_store).2.2.1
      "1" (by decide),
   (create_fortune_spec downCacheEnv ⟨"9", "Y"⟩ create_default_store).2.2.2.2
      rfl rfl⟩

/-- C3: `random` on an empty store is exactly `get "zero"`; on a non-empty
store it delegates to `get` on the id of the snapshot entry at the sampled
index, so with the cache out of the way it answers the content of some
current entry. -/
theorem random_fortune_spec (env : CacheEnv) (i : Nat) (st : Store) :
    (Store.values st = [] →
      random_fortune env i st = get_fortune env "zero" st) ∧
    (∀ hlen : i < (Store.values st).length,
      random_fortune env i st =
        get_fortune env ((Store.values st).get ⟨i, hlen⟩).id st ∧
      (Store.values st).get ⟨i, hlen⟩ ∈ Store.values st) ∧
    (env.connected = false → KeyIdInv st → Store.values st ≠ [] →
      ∃ f, f ∈ Store.values st ∧
        (random_fortune env i st).1 = (200, Body.fortune f)) := by
  refine ⟨?_, ?_, ?_⟩
  · intro h
    unfold random_fortune
    rw [dif_pos h]
  · intro hlen
    have hne : Store.values st ≠ [] := by
      intro he
      rw [he] at hlen
      exact absurd hlen (by simp)
    refine ⟨?_, List.get_mem _ _ _⟩
    unfold random_fortune
    rw [dif_neg hne]
    simp only [Nat.mod_eq_of_lt hlen]
  · intro hc hw hne
    rcases random_fortune_delegates env i st with ⟨he, _⟩ | ⟨f0, hf0, hdel⟩
    · exact absurd he hne
    · rw [hdel]
      exact get_fallback_found env st f0 hc hw hf0

/-- Witness for C3: on the empty store `random` is `get "zero"`; on the
default store with index 0 it delegates to the id of the first snapshot entry
and, with the cache disabled, answers some stored entry. -/
theorem random_fortune_check :
    random_fortune offCacheEnv 0 ([] : Store) =
      get_fortune offCacheEnv "zero" ([] : Store) ∧
    random_fortune offCacheEnv 0 create_default_store =
      get_fortune offCacheEnv
        ((Store.values create_default_store).get ⟨0, by decide⟩).id
        create_default_store ∧
    (∃ f, f ∈ Store.values create_default_store ∧
      (random_fortune offCacheEnv 0 create_default_store).1 =
        (200, Body.fortune f)) :=
  ⟨(random_fortune_spec offCacheEnv 0 []).1 rfl,
   ((random_fortune_spec offCacheEnv 0 create_default_store).2.1 (by decide)).1,
   (random_fortune_spec offCacheEnv 0 create_default_store).2.2 rfl
      (by decide) (by decide)⟩

/-- C4: with the cache disabled, `create f` then `get f.id` returns exactly
`f` (and leaves the store as `create` left it). -/
theorem create_then_get_roundtrip (env : CacheEnv) (f : Fortune) (st : Store)
    (h : env.connected = false) :
    get_fortune env f.id (create_fortune env f st).store =
      ((200, Body.fortune f), (create_fortune env f st).store) := by
  have hs : Store.get (create_fortune env f st).store f.id = some f :=
    Store.get_insert_self st f.id f
  simp [get_fortune, h, hs]

/-- Witness for C4: the round trip at `("9","Y")` over the default store
with the cache disabled. -/
theorem create_then_get_roundtrip_check :
    get_fortune offCacheEnv "9"
        (create_fortune offCacheEnv ⟨"9", "Y"⟩ create_default_store).store =
      ((200, Body.fortune ⟨"9", "Y"⟩),
        (create_fortune offCacheEnv ⟨"9", "Y"⟩ create_default_store).store) :=
  create_then_get_roundtrip offCacheEnv ⟨"9", "Y"⟩ create_default_store rfl

/-- C5: without a configured address `init` returns unavailable with zero
attempts and no sleeping; otherwise it makes up to 5 attempts with a fixed
2-second sleep after each failure, becoming connected at the first success
and unavailable after the 5th failure. -/
theorem init_retry_spec :
    (∀ ok, init false ok = ⟨.unavailable, 0, []⟩) ∧
    (∀ ok, (∀ a, 1 ≤ a → a ≤ 5 → ok a = false) →
      init true ok = ⟨.unavailable, 5, [2, 2, 2, 2, 2]⟩) ∧
    (∀ ok k, 1 ≤ k → k ≤ 5 → (∀ a, 1 ≤ a → a < k → ok a = false) →
      ok k = true →
      init true ok = ⟨.connected, k, List.replicate (k - 1) 2⟩) := by
  refine ⟨fun ok => rfl, ?_, ?_⟩
  · intro ok h
    have h1 := h 1 (by decide) (by decide)
    have h2 := h 2 (by decide) (by decide)
    have h3 := h 3 (by decide) (by decide)
    have h4 := h 4 (by decide) (by decide)
    have h5 := h 5 (by decide) (by decide)
    simp [init, initLoop, h1, h2, h3, h4, h5]
  · intro ok k hk1 hk5 hprev hk
    interval_cases k
    · simp [init, initLoop, hk]
    · have h1 := hprev 1 (by decide) (by decide)
      simp [init, initLoop, h1, hk, List.replicate]
    · have h1 := hprev 1 (by decide) (by decide)
      have h2 := hprev 2 (by decide) (by decide)
      simp [init, initLoop, h1, h2, hk, List.replicate]
    · have h1 := hprev 1 (by decide) (by decide)
      have h2 := hprev 2 (by decide) (by decide)
      have h3 := hprev 3 (by decide) (by decide)
      simp [init, initLoop, h1, h2, h3, hk, List.replicate]
    · have h1 := hprev 1 (by decide) (by decide)
      have h2 := hprev 2 (by decide) (by decide)
      have h3 := hprev 3 (by decide) (by decide)
      have h4 := hprev 4 (by decide) (by decide)
      simp [init, initLoop, h1, h2, h3, h4, hk, List.replicate]

/-- Witness for C5: no config means no attempt; five failures exhaust the
retries with five 2-second sleeps; success at attempt 3 connects after two
sleeps. -/
theorem init_retry_check :
    init false (fun _ => true) = ⟨.unavailable, 0, []⟩ ∧
    init true (fun _ => false) = ⟨.unavailable, 5, [2, 2, 2, 2, 2]⟩ ∧
    init true (fun a => a == 3) = ⟨.connected, 3, [2, 2]⟩ :=
  ⟨init_retry_spec.1 (fun _ => true),
   init_retry_spec.2.1 (fun _ => false) (fun _ _ _ => rfl),
   init_retry_spec.2.2 (fun a => a == 3) 3 (by decide) (by decide)
     (fun a _ h2 => beq_false_of_ne (Nat.ne_of_lt h2)) rfl⟩

/-- C6: every reachable store still answers every statically seeded default
id; no handler or the startup overlay ever removes a key, and listing does
not touch the store at all. -/
theorem store_never_shrinks :
    (∀ st, Reachable st → ∀ k,
      (Store.get create_default_store k).isSome = true →
      (Store.get st k).isSome = true) ∧
    (∀ env id st k, (Store.get st k).isSome = true →
      (Store.get (get_fortune env id st).2 k).isSome = true) ∧
    (∀ env f st k, (Store.get st k).isSome = true →
      (Store.get (create_fortune env f st).store k).isSome = true) ∧
    (∀ env i st k, (Store.get st k).isSome = true →
      (Store.get (random_fortune env i st).2 k).isSome = true) ∧
    (∀ d st k, (Store.get st k).isSome = true →
      (Store.get (rc_load_fortunes d st) k).isSome = true) ∧
    (∀ st, (list_fortunes st).2 = st) := by
  have hload : ∀ d st k, (Store.get st k).isSome = true →
      (Store.get (rc_load_fortunes d st) k).isSome = true := by
    intro d st k h
    exact loadFold_get_isSome _ _ st k h
  refine ⟨?_, get_fortune_get_isSome, ?_, random_fortune_get_isSome, hload,
    fun st => rfl⟩
  · intro st hr k hk
    induction hr with
    | seeded => exact hk
    | overlay d _ ih => exact hload _ _ _ ih
    | step_get env id _ ih => exact get_fortune_get_isSome _ _ _ _ ih
    | step_random env i _ ih => exact random_fortune_get_isSome _ _ _ _ ih
    | step_create env f _ ih => exact Store.get_insert_isSome _ _ _ _ ih
  · intro env f st k h
    exact Store.get_insert_isSome st f.id f k h

/-- Witness for C6: default id "1" survives a create of `("9","Y")`, and
default id "2" survives the sample overlay. -/
theorem store_never_shrinks_check :
    (Store.get (create_fortune downCacheEnv ⟨"9", "Y"⟩ create_default_store).store
      "1").isSome = true ∧
    (Store.get (rc_load_fortunes sampleDb create_default_store) "2").isSome =
      true :=
  ⟨store_never_shrinks.1 _
      (Reachable.step_create downCacheEnv ⟨"9", "Y"⟩ Reachable.seeded)
      "1" (by decide),
   store_never_shrinks.2.2.2.2.1 sampleDb create_default_store "2" (by decide)⟩

/-- C7 counterexample: `create_fortune` performs no id validation, so the
fortune `("", "oops")` is stored verbatim; the reachable-state claim that
every stored fortune has a non-empty id is false. -/
theorem create_accepts_empty_id :
    Store.get
        (create_fortune offCacheEnv ⟨"", "oops"⟩ create_default_store).store
        "" = some ⟨"", "oops"⟩ ∧
    Reachable (create_fortune offCacheEnv ⟨"", "oops"⟩ create_default_store).store ∧
    ¬ (∀ st, Reachable st → ∀ p ∈ st, p.2.id ≠ "") := by
  refine ⟨Store.get_insert_self create_default_store "" ⟨"", "oops"⟩,
    Reachable.step_create offCacheEnv ⟨"", "oops"⟩ Reachable.seeded, ?_⟩
  intro h
  exact h _ (Reachable.step_create offCacheEnv ⟨"", "oops"⟩ Reachable.seeded)
    ("", ⟨"", "oops"⟩) (List.mem_cons_self _ _) rfl

/-- C7 amended: the seeded defaults have non-empty ids and get, random and
the overlay insert only under ids they were handed, so every stored fortune
has a non-empty id provided every caller-supplied fortune id, requested id
and overlaid hash field is non-empty — the code itself never validates. -/
theorem ids_nonempty_of_validated (st : Store) (h : ReachableNE st) :
    ∀ k f, Store.get st k = some f → f.id ≠ "" := by
  intro k f hf
  exact reachableNE_idsNE h (k, f) (lookup_mem hf)

/-- Witness for C7 amended: the seeded entry under "1" has a non-empty
id. -/
theorem ids_nonempty_of_validated_check :
    (Fortune.mk "1"
      "A new voyage will fill your life with untold memories.").id ≠ "" :=
  ids_nonempty_of_validated create_default_store ReachableNE.seeded "1"
    ⟨"1", "A new voyage will fill your life with untold memories."⟩ (by decide)

/-- C8: the point operations address exactly the hash named "fortunes" with
field = id and value = message, touching nothing else; the startup overlay
inserts every field of that hash as a Fortune with that id and message
(replacing a colliding default) and leaves every other id alone. -/
theorem redis_wire_contract_spec :
    (∀ d key, rc_get_fortune d key = RedisDb.hget d "fortunes" key) ∧
    (∀ d key message,
      RedisDb.hget (rc_set_fortune d key message) "fortunes" key =
        some message) ∧
    (∀ d key message h2 f2, (h2 ≠ "fortunes" ∨ f2 ≠ key) →
      RedisDb.hget (rc_set_fortune d key message) h2 f2 =
        RedisDb.hget d h2 f2) ∧
    (∀ d st key m, key ∈ RedisDb.hkeys d "fortunes" →
      RedisDb.hget d "fortunes" key = some m →
      Store.get (rc_load_fortunes d st) key = some ⟨key, m⟩) ∧
    (∀ d st key, key ∉ RedisDb.hkeys d "fortunes" →
      Store.get (rc_load_fortunes d st) key = Store.get st key) := by
  refine ⟨fun d key => rfl, ?_, ?_, ?_, ?_⟩
  · intro d key message
    simp [RedisDb.hget, rc_set_fortune, RedisDb.hset, List.lookup]
  · intro d key message h2 f2 hne
    rcases hne with hh | hf
    · simp [RedisDb.hget, rc_set_fortune, RedisDb.hset, hh]
    · by_cases hh : h2 = "fortunes"
      · subst hh
        simp only [RedisDb.hget, rc_set_fortune, RedisDb.hset, if_pos rfl,
          List.lookup, beq_false_of_ne hf]
        exact lookup_eraseP_ne _ hf
      · simp [RedisDb.hget, rc_set_fortune, RedisDb.hset, hh]
  · intro d st key m hk hm
    exact loadFold_get_mem _ _ st hk hm
  · intro d st key hk
    exact loadFold_get_not_mem _ _ st hk

/-- Witness for C8: the sample overlay replaces the default message under
"1" with the hash value, leaves "2" alone, and a point write lands in the
"fortunes" hash under its own field only. -/
theorem redis_wire_contract_check :
    Store.get (rc_load_fortunes sampleDb create_default_store) "1" =
      some ⟨"1", "redis"⟩ ∧
    Store.get (rc_load_fortunes sampleDb create_default_store) "2" =
      Store.get create_default_store "2" ∧
    RedisDb.hget (rc_set_fortune sampleDb "7" "m") "fortunes" "7" = some "m" ∧
    RedisDb.hget (rc_set_fortune sampleDb "7" "m") "fortunes" "9" =
      RedisDb.hget sampleDb "fortunes" "9" :=
  ⟨redis_wire_contract_spec.2.2.2.1 sampleDb create_default_store "1" "redis"
      (by decide) (by decide),
   redis_wire_contract_spec.2.2.2.2 sampleDb create_default_store "2"
      (by decide),
   redis_wire_contract_spec.2.1 sampleDb "7" "m",
   redis_wire_contract_spec.2.2.1 sampleDb "7" "m" "fortunes" "9"
      (Or.inr (by decide))⟩

/-- C9 counterexample: when the startup overlay reaches its key loop with
at least one field, its write lock is held across a per-key network call. -/
theorem load_fortunes_lock_violation :
    holdsLockAcrossNet (load_fortunes_trace true true ["1"]) = true := by
  rfl

/-- C9 amended: the request handlers (get, create, random) never hold the
store lock across a cache network call, but the startup overlay takes the
write lock before its key loop and holds it across one `HGET` network call
per field, so it violates the discipline exactly when the connection and
`HKEYS` succeed and the hash is non-empty. -/
theorem lock_discipline_spec :
    (∀ env id, holdsLockAcrossNet (get_fortune_trace env id) = false) ∧
    (∀ env, holdsLockAcrossNet (create_fortune_trace env) = false) ∧
    (∀ env i st, holdsLockAcrossNet (random_fortune_trace env i st) = false) ∧
    (∀ keys, keys ≠ [] →
      holdsLockAcrossNet (load_fortunes_trace true true keys) = true) ∧
    (∀ connOk hkeysOk, (connOk = false ∨ hkeysOk = false) → ∀ keys,
      holdsLockAcrossNet (load_fortunes_trace connOk hkeysOk keys) = false) ∧
    holdsLockAcrossNet (load_fortunes_trace true true []) = false := by
  refine ⟨get_trace_clean, ?_, ?_, ?_, ?_, rfl⟩
  · intro env
    unfold create_fortune_trace holdsLockAcrossNet
    cases env.connected <;> rfl
  · intro env i st
    unfold random_fortune_trace holdsLockAcrossNet
    by_cases h : Store.values st = []
    · rw [dif_pos h]
      exact get_trace_clean env "zero"
    · rw [dif_neg h]
      exact get_trace_clean env _
  · intro keys hk
    cases keys with
    | nil => exact absurd rfl hk
    | cons key rest =>
      simp [load_fortunes_trace, holdsLockAcrossNet, netWhileLocked]
  · intro connOk hkeysOk hne keys
    rcases hne with hc | hc <;> subst hc
    · rfl
    · cases connOk <;> rfl

/-- Witness for C9 amended: concrete traces for each handler, a two-field
overlay violating the discipline, and a failed connection avoiding it. -/
theorem lock_discipline_check :
    holdsLockAcrossNet (get_fortune_trace hit5CacheEnv "5") = false ∧
    holdsLockAcrossNet (create_fortune_trace downCacheEnv) = false ∧
    holdsLockAcrossNet (random_fortune_trace offCacheEnv 0 create_default_store) =
      false ∧
    holdsLockAcrossNet (load_fortunes_trace true true ["1", "9"]) = true ∧
    holdsLockAcrossNet (load_fortunes_trace false true ["1"]) = false :=
  ⟨lock_discipline_spec.1 hit5CacheEnv "5",
   lock_discipline_spec.2.1 downCacheEnv,
   lock_discipline_spec.2.2.1 offCacheEnv 0 create_default_store,
   lock_discipline_spec.2.2.2.1 ["1", "9"] (by decide),
   lock_discipline_spec.2.2.2.2.1 false true (Or.inl rfl) ["1"]⟩

/-- C10: in every reachable store state each key maps to a fortune whose
id field equals that key. -/
theorem key_id_consistency (st : Store) (h : Reachable st) :
    ∀ k f, Store.get st k = some f → f.id = k := by
  intro k f hf
  exact reachable_keyIdInv h (k, f) (lookup_mem hf)

/-- Witness for C10: in the seeded store, key "1" holds a fortune whose id
is "1". -/
theorem key_id_consistency_check :
    (Fortune.mk "1"
      "A new voyage will fill your life with untold memories.").id = "1" :=
  key_id_consistency create_default_store Reachable.seeded "1"
    ⟨"1", "A new voyage will fill your life with untold memories."⟩ (by decide)

end FortuneBackend
